import Mathlib

/-!
Formal model of `src/find-solutions.py` (GNOME IntelliJ/Rider search provider).

The script reads the newest `.Rider*` entry under the home directory, parses
`config/options/recentSolutions.xml` inside it, extracts the `value`
attributes of `.//option[@name="recentPaths"]/list/option`, replaces the
`$USER_HOME$` token by `~`, keeps the paths whose `expanduser()` form is an
existing file, builds a solution record per survivor with `get_solution` and
prints the records as a JSON object keyed by record id.

Filesystem access, XML parsing and `json.dumps` are modelled explicitly
below; `pathlib.Path` values are modelled as their string form (the
`str(Path(s))` normalisation is the identity on the strings appearing in
the claims). The Python string primitives used by the script (`replace`,
`strip`, prefix matching, string comparison for `sorted`) are modelled as
structurally recursive functions on the character list of a string, so that
every definition evaluates inside the kernel.
-/

/-- Bool test that `pre` is a prefix of the second list (Python
`str.startswith`, character by character). -/
def isPrefixL : List Char → List Char → Bool
  | [], _ => true
  | _ :: _, [] => false
  | a :: as, b :: bs => a == b && isPrefixL as bs

/-- Replace every non-overlapping occurrence of `pat` from the left, as
Python `str.replace` does; `fuel` bounds the recursion and is instantiated
with the length of the input, which suffices since a non-empty match
consumes at least one character per step. -/
def replaceFuel (pat repl : List Char) : Nat → List Char → List Char
  | 0, l => l
  | fuel + 1, l =>
    match l with
    | [] => []
    | c :: rest =>
      if pat ≠ [] && isPrefixL pat l then
        repl ++ replaceFuel pat repl fuel (l.drop pat.length)
      else c :: replaceFuel pat repl fuel rest

/-- Python `s.replace(pat, repl)` for non-empty `pat`. -/
def pyReplace (s pat repl : String) : String :=
  String.mk (replaceFuel pat.data repl.data s.data.length s.data)

/-- The ASCII whitespace characters Python `str.strip()` removes. -/
def pyIsSpace (c : Char) : Bool :=
  c == ' ' || c == '\t' || c == '\n' || c == '\r' || c == '\x0b' || c == '\x0c'

/-- Python `str.strip()`: remove leading and trailing whitespace. -/
def pyStrip (s : String) : String :=
  String.mk (((s.data.dropWhile pyIsSpace).reverse.dropWhile pyIsSpace).reverse)

/-- Python `s.startswith(pre)`. -/
def pyStartsWith (s pre : String) : Bool := isPrefixL pre.data s.data

/-- Code-point comparison of characters, as Python compares strings. -/
def charLtb (a b : Char) : Bool := decide (a.toNat < b.toNat)

/-- Lexicographic strict order on character lists (Python string `<`). -/
def strLtL : List Char → List Char → Bool
  | [], [] => false
  | [], _ :: _ => true
  | _ :: _, [] => false
  | a :: as, b :: bs =>
    if charLtb a b then true else if charLtb b a then false else strLtL as bs

/-- Python string `<=`. -/
def strLe (s t : String) : Bool := strLtL s.data t.data || s.data == t.data

/-- Drop the first `n` characters of a string. -/
def dropChars (s : String) (n : Nat) : String := String.mk (s.data.drop n)

/-- Outcome of Python's `Path.read_text`: the decoded content, a
`FileNotFoundError`, or any other exception (`PermissionError`,
`UnicodeDecodeError`, ...), which `get_solution` does not catch. -/
inductive ReadResult where
  | ok (content : String)
  | fileNotFound
  | otherError
deriving DecidableEq, Repr

/-- Uncaught Python exceptions that terminate the process: a parse or
file-access failure in `etree.parse`, or a read failure other than
`FileNotFoundError` in `get_solution`. -/
inductive Err where
  | parseError
  | readError
deriving DecidableEq, Repr

/-- A fixed filesystem state, as the script observes it: the home directory
path, the names of the direct children of home (what `Path.home().glob`
ranges over), whether such a child is a directory, `Path.is_file` on a path
string, `Path.read_text` on a path string, and the result of `etree.parse`
plus `findall` on a session-history file: `none` for a missing or malformed
file, otherwise the list of `value` attributes of the matched `option`
elements, in document order. -/
structure FS where
  home : String
  homeEntries : List String
  isDirEntry : String → Bool
  isFile : String → Bool
  readText : String → ReadResult
  parseXml : String → Option (List String)

/-- Python's `Path.expanduser()`: a leading `~` component is replaced by the
home directory; anything else (including a `~` in the middle of the path) is
left unchanged. The `~user` form never arises here because `~` is only
introduced by the `$USER_HOME$` substitution. -/
def expanduser (fs : FS) (p : String) : String :=
  if p = "~" then fs.home
  else if pyStartsWith p "~/" then fs.home ++ dropChars p 1
  else p

/-- Insert a string into a descending-sorted list, keeping it sorted. -/
def insertDesc (x : String) : List String → List String
  | [] => [x]
  | y :: ys => if strLe y x then x :: y :: ys else y :: insertDesc x ys

/-- Python's `sorted(candidates, key=lambda p: p.name, reverse=True)` on
names: insertion sort into descending order (extensionally the sorted
permutation; stability is irrelevant here because elements compared equal
are identical strings). -/
def sortDesc (l : List String) : List String := l.foldr insertDesc []

/-- `find_latest_recent_solutions_file` from the source: glob `.Rider*`
under home (matching entries of any file type), sort the names in reverse
order, take the first, and append `config/options/recentSolutions.xml`;
`None` when nothing matches. -/
def find_latest_recent_solutions_file (fs : FS) : Option String :=
  match sortDesc (fs.homeEntries.filter (fun n => pyStartsWith n ".Rider")) with
  | [] => none
  | best :: _ => some (fs.home ++ "/" ++ best ++ "/config/options/recentSolutions.xml")

/-- One solution record, mirroring the dictionary built by `get_solution`. -/
structure Solution where
  id : String
  name : String
  path : String
  abspath : String
deriving DecidableEq, Repr

/-- The record `get_solution` returns when `read_text` does not raise an
uncaught exception: the name is the stripped content when the read succeeds
and the raw path string on `FileNotFoundError`; the id is the expanded path
prefixed by the fixed namespace tag; `path` is `str(solutionfile)` and
`abspath` is `str(solutionfile.expanduser())`. -/
def solutionRecord (fs : FS) (solutionfile : String) : Solution :=
  { id := "intellij-rider-search-provider-" ++ expanduser fs solutionfile
    name := match fs.readText solutionfile with
      | .ok text => pyStrip text
      | _ => solutionfile
    path := solutionfile
    abspath := expanduser fs solutionfile }

/-- `get_solution` from the source: read the given (unexpanded) path,
falling back to the raw path string only on `FileNotFoundError`; any other
read failure propagates to the caller. -/
def get_solution (fs : FS) (solutionfile : String) : Except Err Solution :=
  match fs.readText solutionfile with
  | .otherError => Except.error Err.readError
  | _ => Except.ok (solutionRecord fs solutionfile)

/-- The paths extracted from the parsed values: `$USER_HOME$` replaced by
`~` in each `value` attribute (line 64 of the source). -/
def recentPathsOf (values : List String) : List String :=
  values.map (fun v => pyReplace v "$USER_HOME$" "~")

/-- The paths surviving the filter on line 68: those whose expanded form is
an existing file. -/
def survivingPaths (fs : FS) (values : List String) : List String :=
  (recentPathsOf values).filter (fun p => fs.isFile (expanduser fs p))

/-- The solution records produced for the surviving paths, in list order;
an uncaught read failure aborts the whole traversal, as it does in the
generator pipeline. `etree.parse` applied to `None` or to a missing or
malformed file raises. -/
def recentRecords (fs : FS) (file : Option String) : Except Err (List Solution) :=
  match file with
  | none => Except.error Err.parseError
  | some f =>
    match fs.parseXml f with
    | none => Except.error Err.parseError
    | some values => (survivingPaths fs values).mapM (get_solution fs)

/-- One step of Python dict construction: overwrite the value stored under
an existing key in place, otherwise append the new pair. -/
def insertPy (m : List (String × Solution)) (k : String) (v : Solution) :
    List (String × Solution) :=
  if m.any (fun kv => kv.1 == k) then
    m.map (fun kv => if kv.1 = k then (k, v) else kv)
  else m ++ [(k, v)]

/-- `dict((solution['id'], solution) for solution in solutions)`: fold the
records into a dict keyed by id, later colliding ids overwriting earlier
values. -/
def buildDict (l : List Solution) : List (String × Solution) :=
  l.foldl (fun m s => insertPy m s.id s) []

/-- Dict lookup: the value stored under the first (and, by construction,
only) occurrence of the key. -/
def lookupD (m : List (String × Solution)) (k : String) : Option Solution :=
  (m.find? (fun kv => kv.1 == k)).map (fun kv => kv.2)

/-- `find_recent_solutions` from the source: parse, extract, filter, build
records, and index them by id. -/
def find_recent_solutions (fs : FS) (file : Option String) :
    Except Err (List (String × Solution)) :=
  (recentRecords fs file).map buildDict

/-- JSON values, as far as this program's output needs them: strings and
objects. -/
inductive Json where
  | str (s : String)
  | obj (fields : List (String × Json))
deriving Repr

/-- Escape one character as inside a JSON string literal (`json.dumps`;
the additional `ensure_ascii` escaping of non-ASCII and control characters
is omitted — it does not affect the stated properties). -/
def escapeChar (c : Char) : String :=
  if c = '"' then "\\\""
  else if c = '\\' then "\\\\"
  else if c = '\n' then "\\n"
  else if c = '\t' then "\\t"
  else if c = '\r' then "\\r"
  else String.singleton c

/-- Escape a string for inclusion in a JSON string literal. -/
def jsonEscape (s : String) : String :=
  String.join (s.data.map escapeChar)

/-- A JSON string literal. -/
def jsonQuote (s : String) : String := "\"" ++ jsonEscape s ++ "\""

mutual
/-- Serialize a JSON value the way `json.dumps` renders it (default
separators). -/
def serialize : Json → String
  | .str s => jsonQuote s
  | .obj fields => "\x7b" ++ String.intercalate ", " (serializeFields fields) ++ "\x7d"

/-- Serialize the fields of a JSON object. -/
def serializeFields : List (String × Json) → List String
  | [] => []
  | (k, v) :: rest => (jsonQuote k ++ ": " ++ serialize v) :: serializeFields rest
end

/-- The JSON object for one solution record, fields in insertion order. -/
def solutionJson (s : Solution) : Json :=
  Json.obj [("id", Json.str s.id), ("name", Json.str s.name),
            ("path", Json.str s.path), ("abspath", Json.str s.abspath)]

/-- The JSON object for the whole output dict. -/
def outputJson (m : List (String × Solution)) : Json :=
  Json.obj (m.map (fun kv => (kv.1, solutionJson kv.2)))

/-- `main` from the source: locate the session-history file, extract the
solutions, and print them as one line of JSON; any uncaught exception ends
the process with no output. -/
def mainOutput (fs : FS) : Except Err String :=
  (find_recent_solutions fs (find_latest_recent_solutions_file fs)).map
    (fun m => serialize (outputJson m))


theorem charLtb_eq_true {a b : Char} : charLtb a b = true ↔ a.toNat < b.toNat := by
  simp [charLtb]

theorem char_eq_of_not_ltb {a b : Char} (h1 : charLtb a b = false)
    (h2 : charLtb b a = false) : a = b := by
  simp [charLtb] at h1 h2
  exact Char.ext (UInt32.toNat.inj (Nat.le_antisymm h2 h1))

theorem strLtL_irrefl (a : List Char) : strLtL a a = false := by
  induction a with
  | nil => rfl
  | cons x xs ih => simp [strLtL, charLtb, ih]

theorem strLtL_trans (a : List Char) : ∀ b c, strLtL a b = true → strLtL b c = true →
    strLtL a c = true := by
  induction a with
  | nil =>
    intro b c h1 h2
    cases b with
    | nil => simp [strLtL] at h1
    | cons y ys =>
      cases c with
      | nil => simp [strLtL] at h2
      | cons z zs => simp [strLtL]
  | cons x xs ih =>
    intro b c h1 h2
    cases b with
    | nil => simp [strLtL] at h1
    | cons y ys =>
      cases c with
      | nil => simp [strLtL] at h2
      | cons z zs =>
        simp only [strLtL, charLtb, decide_eq_true_eq] at h1 h2 ⊢
        split_ifs at h1 h2 ⊢ with h₁ h₂ h₃ h₄ h₅ h₆ <;> try rfl
        all_goals try omega
        exact ih ys zs h1 h2

theorem strLtL_total (a : List Char) : ∀ b, strLtL a b = true ∨ strLtL b a = true ∨ a = b := by
  induction a with
  | nil =>
    intro b
    cases b with
    | nil => right; right; rfl
    | cons y ys => left; simp [strLtL]
  | cons x xs ih =>
    intro b
    cases b with
    | nil => right; left; simp [strLtL]
    | cons y ys =>
      by_cases hxy : charLtb x y = true
      · left; simp [strLtL, hxy]
      · by_cases hyx : charLtb y x = true
        · right; left; simp [strLtL, hyx]
        · have hx := char_eq_of_not_ltb (Bool.eq_false_iff.mpr hxy) (Bool.eq_false_iff.mpr hyx)
          subst hx
          rcases ih ys with h | h | h
          · left; simp [strLtL, strLtL_irrefl, h, Bool.eq_false_iff.mpr hxy]
          · right; left; simp [strLtL, h, Bool.eq_false_iff.mpr hxy]
          · right; right; rw [h]

theorem strLe_refl (s : String) : strLe s s = true := by
  simp [strLe]

theorem strLe_total {s t : String} (h : strLe s t = false) : strLe t s = true := by
  simp only [strLe, Bool.or_eq_false_iff] at h
  rcases strLtL_total t.data s.data with h1 | h1 | h1
  · simp [strLe, h1]
  · exact absurd h1 (by simp [h.1])
  · exact absurd (String.ext h1.symm) (by
      intro he
      have := h.2
      simp [he] at this)

theorem strLe_trans {a b c : String} (h1 : strLe a b = true) (h2 : strLe b c = true) :
    strLe a c = true := by
  simp only [strLe, Bool.or_eq_true, beq_iff_eq] at h1 h2 ⊢
  rcases h1 with h1 | h1
  · rcases h2 with h2 | h2
    · exact Or.inl (strLtL_trans _ _ _ h1 h2)
    · exact Or.inl (h2 ▸ h1)
  · rcases h2 with h2 | h2
    · exact Or.inl (h1 ▸ h2)
    · exact Or.inr (h1.trans h2)

theorem mem_insertDesc {a x : String} : ∀ {l : List String},
    a ∈ insertDesc x l ↔ a = x ∨ a ∈ l := by
  intro l
  induction l with
  | nil => simp [insertDesc]
  | cons y ys ih =>
    simp only [insertDesc]
    split
    · simp [List.mem_cons]
    · simp only [List.mem_cons, ih]
      tauto

theorem insertDesc_ne_nil (x : String) (l : List String) : insertDesc x l ≠ [] := by
  cases l with
  | nil => simp [insertDesc]
  | cons y ys =>
    simp only [insertDesc]
    split <;> simp

theorem mem_sortDesc {a : String} : ∀ {l : List String}, a ∈ sortDesc l ↔ a ∈ l := by
  intro l
  induction l with
  | nil => simp [sortDesc]
  | cons x xs ih =>
    show a ∈ insertDesc x (sortDesc xs) ↔ _
    rw [mem_insertDesc]
    simp [List.mem_cons, ih]

theorem sortDesc_eq_nil {l : List String} (h : sortDesc l = []) : l = [] := by
  cases l with
  | nil => rfl
  | cons x xs => exact absurd h (insertDesc_ne_nil x (sortDesc xs))

theorem sortDesc_head_max : ∀ {l : List String} {b : String} {rest : List String},
    sortDesc l = b :: rest → b ∈ l ∧ ∀ a ∈ l, strLe a b = true := by
  intro l
  induction l with
  | nil => intro b rest h; simp [sortDesc] at h
  | cons x xs ih =>
    intro b rest h
    replace h : insertDesc x (sortDesc xs) = b :: rest := h
    cases hx : sortDesc xs with
    | nil =>
      have hxs : xs = [] := sortDesc_eq_nil hx
      rw [hx] at h
      simp only [insertDesc] at h
      obtain ⟨rfl, _⟩ := List.cons.injEq .. ▸ h
      refine ⟨List.mem_cons_self .., ?_⟩
      intro a ha
      rcases List.mem_cons.mp ha with rfl | ha
      · exact strLe_refl a
      · simp [hxs] at ha
    | cons y ys =>
      rw [hx] at h
      obtain ⟨hymem, hymax⟩ := ih hx
      simp only [insertDesc] at h
      by_cases hyx : strLe y x = true
      · rw [if_pos hyx] at h
        obtain rfl : x = b := (List.cons.injEq .. ▸ h).1
        refine ⟨List.mem_cons_self .., ?_⟩
        intro a ha
        rcases List.mem_cons.mp ha with rfl | ha
        · exact strLe_refl a
        · exact strLe_trans (hymax a ha) hyx
      · rw [if_neg hyx] at h
        obtain rfl : y = b := (List.cons.injEq .. ▸ h).1
        refine ⟨List.mem_cons_of_mem _ hymem, ?_⟩
        intro a ha
        rcases List.mem_cons.mp ha with rfl | ha
        · exact strLe_total (Bool.eq_false_iff.mpr hyx)
        · exact hymax a ha

theorem mem_insertPy {kv : String × Solution} {m : List (String × Solution)}
    {k : String} {v : Solution} (h : kv ∈ insertPy m k v) : kv ∈ m ∨ kv = (k, v) := by
  unfold insertPy at h
  split at h
  · rcases List.mem_map.mp h with ⟨kv', hkv', heq⟩
    by_cases hk : kv'.1 = k
    · right; rw [if_pos hk] at heq; exact heq.symm
    · left; rw [if_neg hk] at heq; exact heq ▸ hkv'
  · rcases List.mem_append.mp h with h | h
    · exact Or.inl h
    · right; simpa using h

theorem mem_foldl_insertPy {kv : String × Solution} :
    ∀ {l : List Solution} {acc : List (String × Solution)},
      kv ∈ l.foldl (fun m s => insertPy m s.id s) acc →
      kv ∈ acc ∨ ∃ s ∈ l, kv = (s.id, s) := by
  intro l
  induction l with
  | nil => intro acc h; exact Or.inl h
  | cons s rest ih =>
    intro acc h
    rcases @ih (insertPy acc s.id s) h with h' | ⟨t, ht, rfl⟩
    · rcases mem_insertPy h' with h'' | h''
      · exact Or.inl h''
      · exact Or.inr ⟨s, List.mem_cons_self .., h''⟩
    · exact Or.inr ⟨t, List.mem_cons_of_mem _ ht, rfl⟩

theorem mem_buildDict {kv : String × Solution} {l : List Solution}
    (h : kv ∈ buildDict l) : ∃ s ∈ l, kv = (s.id, s) := by
  rcases @mem_foldl_insertPy kv l [] h with h' | h'
  · simp at h'
  · exact h'

theorem lookupD_cons_pos {x : String × Solution} {m : List (String × Solution)}
    {k : String} (h : x.1 = k) : lookupD (x :: m) k = some x.2 := by
  have hb : (fun kv : String × Solution => kv.1 == k) x = true := by simpa using h
  unfold lookupD
  rw [List.find?_cons_of_pos (p := fun kv => kv.1 == k) (a := x) m hb]
  rfl

theorem lookupD_cons_neg {x : String × Solution} {m : List (String × Solution)}
    {k : String} (h : x.1 ≠ k) : lookupD (x :: m) k = lookupD m k := by
  have hb : ¬((fun kv : String × Solution => kv.1 == k) x = true) := by simpa using h
  unfold lookupD
  rw [List.find?_cons_of_neg (p := fun kv => kv.1 == k) (a := x) m hb]

theorem lookupD_map_ne {m : List (String × Solution)} {k k' : String} {v : Solution}
    (hne : k' ≠ k) :
    lookupD (m.map (fun kv => if kv.1 = k then (k, v) else kv)) k' = lookupD m k' := by
  induction m with
  | nil => rfl
  | cons kv rest ih =>
    rw [List.map_cons]
    by_cases hk : kv.1 = k
    · rw [if_pos hk]
      rw [lookupD_cons_neg (x := (k, v)) (Ne.symm hne)]
      rw [lookupD_cons_neg (by rw [hk]; exact Ne.symm hne)]
      exact ih
    · rw [if_neg hk]
      by_cases hk' : kv.1 = k'
      · rw [lookupD_cons_pos hk', lookupD_cons_pos hk']
      · rw [lookupD_cons_neg hk', lookupD_cons_neg hk']
        exact ih

theorem lookupD_map_eq {m : List (String × Solution)} {k : String} {v : Solution}
    (hany : m.any (fun kv => kv.1 == k) = true) :
    lookupD (m.map (fun kv => if kv.1 = k then (k, v) else kv)) k = some v := by
  induction m with
  | nil => simp at hany
  | cons kv rest ih =>
    rw [List.map_cons]
    by_cases hk : kv.1 = k
    · rw [if_pos hk, lookupD_cons_pos (x := (k, v)) rfl]
    · rw [if_neg hk, lookupD_cons_neg hk]
      simp only [List.any_cons, Bool.or_eq_true, beq_iff_eq] at hany
      rcases hany with h | h
      · exact absurd h hk
      · exact ih h

theorem lookupD_append_new {m : List (String × Solution)} {k k' : String} {v : Solution}
    (hany : m.any (fun kv => kv.1 == k) = false) :
    lookupD (m ++ [(k, v)]) k' = if k' = k then some v else lookupD m k' := by
  induction m with
  | nil =>
    by_cases h : k' = k
    · rw [if_pos h, List.nil_append, lookupD_cons_pos (x := (k, v)) h.symm]
    · rw [if_neg h, List.nil_append, lookupD_cons_neg (x := (k, v)) (fun he => h he.symm)]
  | cons kv rest ih =>
    simp only [List.any_cons, Bool.or_eq_false_iff, beq_eq_false_iff_ne] at hany
    rw [List.cons_append]
    by_cases hk' : kv.1 = k'
    · have hkk : ¬(k' = k) := fun he => hany.1 (hk'.trans he)
      rw [if_neg hkk, lookupD_cons_pos hk', lookupD_cons_pos hk']
    · rw [lookupD_cons_neg hk', lookupD_cons_neg hk']
      exact ih (by simpa using hany.2)

theorem lookupD_insertPy (m : List (String × Solution)) (k k' : String) (v : Solution) :
    lookupD (insertPy m k v) k' = if k' = k then some v else lookupD m k' := by
  unfold insertPy
  by_cases hany : m.any (fun kv => kv.1 == k) = true
  · rw [if_pos hany]
    by_cases hk : k' = k
    · rw [if_pos hk, hk]
      exact lookupD_map_eq hany
    · rw [if_neg hk]
      exact lookupD_map_ne hk
  · rw [if_neg hany]
    exact lookupD_append_new (Bool.eq_false_iff.mpr hany)

theorem lookupD_foldl : ∀ (l : List Solution) (acc : List (String × Solution)) (k : String),
    lookupD (l.foldl (fun m s => insertPy m s.id s) acc) k =
      (l.reverse.find? (fun s => s.id == k)).elim (lookupD acc k) some := by
  intro l
  induction l with
  | nil => intro acc k; simp
  | cons s rest ih =>
    intro acc k
    show lookupD (rest.foldl _ (insertPy acc s.id s)) k = _
    rw [ih, List.reverse_cons, List.find?_append]
    cases h : rest.reverse.find? (fun s => s.id == k) with
    | some t => simp [Option.or]
    | none =>
      simp only [Option.or, Option.elim]
      rw [lookupD_insertPy]
      by_cases hk : s.id = k
      · simp [List.find?_cons, beq_iff_eq.mpr hk, hk]
      · simp [List.find?_cons, beq_eq_false_iff_ne.mpr hk, Ne.symm hk]

theorem lookupD_buildDict (l : List Solution) (k : String) :
    lookupD (buildDict l) k = l.reverse.find? (fun s => s.id == k) := by
  rw [buildDict, lookupD_foldl]
  cases h : l.reverse.find? (fun s => s.id == k) <;> simp [lookupD]

theorem get_solution_ok {fs : FS} {p : String} {r : Solution}
    (h : get_solution fs p = Except.ok r) : r = solutionRecord fs p := by
  unfold get_solution at h
  split at h
  · exact absurd h (by simp)
  · exact (Except.ok.injEq .. ▸ h).symm

theorem get_solution_ok_of_ne {fs : FS} {p : String}
    (h : fs.readText p ≠ ReadResult.otherError) :
    get_solution fs p = Except.ok (solutionRecord fs p) := by
  unfold get_solution
  split
  · exact absurd (by assumption) h
  · rfl

theorem mapM_get_solution {fs : FS} : ∀ {xs : List String} {l : List Solution},
    xs.mapM (get_solution fs) = Except.ok l → l = xs.map (solutionRecord fs) := by
  intro xs
  induction xs with
  | nil =>
    intro l h
    simp only [List.mapM_nil, pure, Except.pure] at h
    simp [(Except.ok.injEq .. ▸ h).symm]
  | cons x rest ih =>
    intro l h
    rw [List.mapM_cons] at h
    cases hx : get_solution fs x with
    | error e => rw [hx] at h; simp [Bind.bind, Except.bind] at h
    | ok r =>
      rw [hx] at h
      cases hrest : rest.mapM (get_solution fs) with
      | error e => rw [hrest] at h; simp [Bind.bind, Except.bind] at h
      | ok l' =>
        rw [hrest] at h
        simp only [Bind.bind, Except.bind, pure, Except.pure, Except.ok.injEq] at h
        rw [List.map_cons, ← ih hrest, ← get_solution_ok hx, ← h]

theorem recentRecords_ok {fs : FS} {f : String} {values : List String} {l : List Solution}
    (hparse : fs.parseXml f = some values)
    (h : recentRecords fs (some f) = Except.ok l) :
    l = (survivingPaths fs values).map (solutionRecord fs) := by
  unfold recentRecords at h
  simp only [] at h
  rw [hparse] at h
  exact mapM_get_solution h

theorem find_recent_ok {fs : FS} {file : Option String} {m : List (String × Solution)}
    (h : find_recent_solutions fs file = Except.ok m) :
    ∃ l, recentRecords fs file = Except.ok l ∧ m = buildDict l := by
  unfold find_recent_solutions at h
  cases hr : recentRecords fs file with
  | error e => rw [hr] at h; simp [Except.map] at h
  | ok l =>
    rw [hr] at h
    simp only [Except.map, Except.ok.injEq] at h
    exact ⟨l, rfl, h.symm⟩

/-- C1: for a session-history file that parses to the given list of values,
every listed path whose expanded form does not exist as a file is excluded
from the mapping returned by `find_recent_solutions`: no record in the
returned dict has it as its `path`. -/
theorem C1_missing_paths_excluded (fs : FS) (f : String) (values : List String)
    (m : List (String × Solution)) (p : String)
    (hparse : fs.parseXml f = some values)
    (hrun : find_recent_solutions fs (some f) = Except.ok m)
    (_hp : p ∈ recentPathsOf values)
    (hmiss : fs.isFile (expanduser fs p) = false) :
    ∀ kv ∈ m, kv.2.path ≠ p := by
  intro kv hkv
  obtain ⟨l, hl, rfl⟩ := find_recent_ok hrun
  obtain ⟨s, hs, rfl⟩ := mem_buildDict hkv
  rw [recentRecords_ok hparse hl] at hs
  rcases List.mem_map.mp hs with ⟨q, hq, rfl⟩
  intro hpath
  have hqp : q = p := hpath
  rcases List.mem_filter.mp hq with ⟨_, hfile⟩
  rw [hqp, hmiss] at hfile
  cases hfile

/-- C2 as amended: each occurrence of a listed path whose expanded form
exists as a file produces exactly one record in the produced record
sequence (the record count equals the path's occurrence count among the
listed paths, so a path listed once gets exactly one record), and that
record's `abspath` is the path with the leading home placeholder expanded.
In the returned mapping a later entry with the same id overwrites an
earlier record, so an existing listed path keeps its own entry there only
when no later listed path yields the same id. -/
theorem C2_amended_record_per_occurrence (fs : FS) (f : String) (values : List String)
    (l : List Solution) (p : String)
    (hparse : fs.parseXml f = some values)
    (hrec : recentRecords fs (some f) = Except.ok l)
    (_hp : p ∈ recentPathsOf values)
    (hex : fs.isFile (expanduser fs p) = true) :
    List.count (solutionRecord fs p) l = List.count p (recentPathsOf values) ∧
      (solutionRecord fs p).abspath = expanduser fs p := by
  constructor
  · rw [recentRecords_ok hparse hrec]
    have hinj : Function.Injective (solutionRecord fs) := by
      intro a b hab
      exact congrArg Solution.path hab
    rw [List.count_map_of_injective _ _ hinj]
    rw [survivingPaths, List.count_filter (by simpa using hex)]
  · rfl

/-- C3: the id of every record built by `get_solution` equals the expanded
absolute path prefixed by the fixed namespace tag; it is therefore a
deterministic function of the expanded path, and any two records whose
inputs expand to the same path get the same id. -/
theorem C3_id_deterministic_prefixed (fs : FS) (p : String) (r : Solution)
    (h : get_solution fs p = Except.ok r) :
    r.id = "intellij-rider-search-provider-" ++ expanduser fs p ∧
    (∃ rest, r.id = "intellij-rider-search-provider-" ++ rest) ∧
    (∀ (fs' : FS) (q : String) (r' : Solution), get_solution fs' q = Except.ok r' →
      expanduser fs' q = expanduser fs p → r'.id = r.id) := by
  obtain rfl := get_solution_ok h
  refine ⟨rfl, ⟨expanduser fs p, rfl⟩, ?_⟩
  intro fs' q r' h' heq
  rw [get_solution_ok h']
  show "intellij-rider-search-provider-" ++ expanduser fs' q = _
  rw [heq]
  rfl

/-- A filesystem on which the session file lists a single path that uses the
home placeholder: the stored `path` field then differs from the raw value
attribute. -/
def fsC4 : FS :=
  { home := "/home/u"
    homeEntries := [".Rider1"]
    isDirEntry := fun _ => true
    isFile := fun p => p == "/home/u/proj/a"
    readText := fun p => if p == "/home/u/proj/a" then .ok "Alpha" else .fileNotFound
    parseXml := fun f =>
      if f == "/home/u/.Rider1/config/options/recentSolutions.xml" then
        some ["$USER_HOME$/proj/a"]
      else none }

/-- The single record `find_recent_solutions` produces on `fsC4`. -/
def solC4 : Solution :=
  { id := "intellij-rider-search-provider-/home/u/proj/a"
    name := "~/proj/a"
    path := "~/proj/a"
    abspath := "/home/u/proj/a" }

/-- C4 counterexample: the source XML lists the value
`$USER_HOME$/proj/a`, but the produced record's `path` field is
`~/proj/a` — the home placeholder token has been rewritten to `~`, so
`path` is not the original value attribute verbatim. -/
theorem C4_counterexample :
    fsC4.parseXml "/home/u/.Rider1/config/options/recentSolutions.xml" =
      some ["$USER_HOME$/proj/a"] ∧
    find_recent_solutions fsC4 (some "/home/u/.Rider1/config/options/recentSolutions.xml") =
      Except.ok [("intellij-rider-search-provider-/home/u/proj/a", solC4)] ∧
    solC4.path = "~/proj/a" ∧
    solC4.path ≠ "$USER_HOME$/proj/a" := by
  refine ⟨rfl, rfl, rfl, ?_⟩
  decide

/-- C4 as amended: every record's `path` equals the source value attribute
with each `$USER_HOME$` occurrence replaced by `~` (so it may still carry
the unexpanded `~` placeholder, but not the original token). -/
theorem C4_amended_path_is_substituted_value (fs : FS) (f : String)
    (values : List String) (l : List Solution)
    (hparse : fs.parseXml f = some values)
    (hrec : recentRecords fs (some f) = Except.ok l) :
    ∀ r ∈ l, ∃ v ∈ values, r.path = pyReplace v "$USER_HOME$" "~" := by
  intro r hr
  rw [recentRecords_ok hparse hrec] at hr
  rcases List.mem_map.mp hr with ⟨q, hq, rfl⟩
  rcases List.mem_filter.mp hq with ⟨hq', _⟩
  rcases List.mem_map.mp hq' with ⟨v, hv, rfl⟩
  exact ⟨v, hv, rfl⟩

/-- A filesystem whose marker file exists but fails to read with an error
other than `FileNotFoundError` (e.g. a permission or decoding error). -/
def fsC5 : FS :=
  { home := "/home/u"
    homeEntries := [".Rider1"]
    isDirEntry := fun _ => true
    isFile := fun _ => true
    readText := fun _ => .otherError
    parseXml := fun _ => none }

/-- C5 counterexample: the marker file `/home/u/s` is unreadable, yet
`get_solution` does not produce a record whose `name` is the raw path — it
raises, because only `FileNotFoundError` is caught. -/
theorem C5_counterexample :
    fsC5.readText "/home/u/s" = ReadResult.otherError ∧
    get_solution fsC5 "/home/u/s" = Except.error Err.readError := ⟨rfl, rfl⟩

/-- C5 as amended: if reading the marker file raises `FileNotFoundError`
the record's `name` is the raw path string; if the read succeeds the `name`
is the stripped content; any other read failure produces no record at all
and propagates. -/
theorem C5_amended_name_rules (fs : FS) (p : String) :
    (fs.readText p = ReadResult.fileNotFound →
      get_solution fs p = Except.ok (solutionRecord fs p) ∧ (solutionRecord fs p).name = p) ∧
    (∀ text, fs.readText p = ReadResult.ok text →
      get_solution fs p = Except.ok (solutionRecord fs p) ∧
        (solutionRecord fs p).name = pyStrip text) ∧
    (fs.readText p = ReadResult.otherError →
      get_solution fs p = Except.error Err.readError) := by
  refine ⟨?_, ?_, ?_⟩
  · intro h
    refine ⟨get_solution_ok_of_ne (by rw [h]; simp), ?_⟩
    show (match fs.readText p with
      | .ok text => pyStrip text
      | _ => p) = p
    rw [h]
  · intro text h
    refine ⟨get_solution_ok_of_ne (by rw [h]; simp), ?_⟩
    show (match fs.readText p with
      | .ok text => pyStrip text
      | _ => p) = pyStrip text
    rw [h]
  · intro h
    unfold get_solution
    rw [h]

/-- The locator as the claim words it (for comparison with the code):
candidates restricted to entries that are directories. The code itself
(`Path.home().glob` without a directory test) puts no such restriction. -/
def find_latest_dirs_only (fs : FS) : Option String :=
  match sortDesc (fs.homeEntries.filter
      (fun n => pyStartsWith n ".Rider" && fs.isDirEntry n)) with
  | [] => none
  | best :: _ => some (fs.home ++ "/" ++ best ++ "/config/options/recentSolutions.xml")

/-- A home directory holding a matching directory `.Rider1` and a matching
plain file `.RiderZ` whose name sorts above it. -/
def fsC6 : FS :=
  { home := "/h"
    homeEntries := [".Rider1", ".RiderZ"]
    isDirEntry := fun n => n == ".Rider1"
    isFile := fun _ => false
    readText := fun _ => .fileNotFound
    parseXml := fun _ => none }

/-- C6 counterexample: the locator selects the entry `.RiderZ`, which is
not a directory, because the glob ranges over entries of any type; the
directories-only reading of the claim would select `.Rider1` instead. -/
theorem C6_counterexample :
    fsC6.isDirEntry ".RiderZ" = false ∧
    find_latest_recent_solutions_file fsC6 =
      some "/h/.RiderZ/config/options/recentSolutions.xml" ∧
    find_latest_dirs_only fsC6 =
      some "/h/.Rider1/config/options/recentSolutions.xml" ∧
    find_latest_recent_solutions_file fsC6 ≠ find_latest_dirs_only fsC6 := by
  refine ⟨rfl, rfl, rfl, ?_⟩
  decide

/-- C6 as amended: the locator lists the entries (of any file type) under
home whose names match the fixed `.Rider` pattern; if none matches it
returns an absence value, and otherwise it returns the fixed relative
sub-path `config/options/recentSolutions.xml` inside the matching entry
with the lexicographically greatest name. -/
theorem C6_amended_locator_behaviour (fs : FS) :
    ((fs.homeEntries.filter (fun n => pyStartsWith n ".Rider")) = [] →
      find_latest_recent_solutions_file fs = none) ∧
    ((fs.homeEntries.filter (fun n => pyStartsWith n ".Rider")) ≠ [] →
      ∃ best ∈ fs.homeEntries.filter (fun n => pyStartsWith n ".Rider"),
        (∀ a ∈ fs.homeEntries.filter (fun n => pyStartsWith n ".Rider"),
          strLe a best = true) ∧
        find_latest_recent_solutions_file fs =
          some (fs.home ++ "/" ++ best ++ "/config/options/recentSolutions.xml")) := by
  constructor
  · intro h
    unfold find_latest_recent_solutions_file
    rw [h]
    rfl
  · intro h
    cases hs : sortDesc (fs.homeEntries.filter (fun n => pyStartsWith n ".Rider")) with
    | nil => exact absurd (sortDesc_eq_nil hs) h
    | cons best rest =>
      obtain ⟨hmem, hmax⟩ := sortDesc_head_max hs
      refine ⟨best, hmem, hmax, ?_⟩
      unfold find_latest_recent_solutions_file
      rw [hs]

/-- C7: when no entry under home matches the `.Rider` pattern the locator
returns an absence value, `etree.parse` is applied to it and raises, and the
program terminates with the error and produces no output. -/
theorem C7_no_matching_entry_fatal (fs : FS)
    (h : ∀ e ∈ fs.homeEntries, pyStartsWith e ".Rider" = false) :
    find_latest_recent_solutions_file fs = none ∧
    mainOutput fs = Except.error Err.parseError := by
  have hf : fs.homeEntries.filter (fun n => pyStartsWith n ".Rider") = [] := by
    rw [List.filter_eq_nil_iff]
    intro a ha
    simp [h a ha]
  have hl : find_latest_recent_solutions_file fs = none := by
    unfold find_latest_recent_solutions_file
    rw [hf]
    rfl
  refine ⟨hl, ?_⟩
  unfold mainOutput
  rw [hl]
  rfl

/-- C8: whenever the extraction succeeds, the printed output is exactly the
serialization of a JSON object built from the returned dict — hence valid
JSON — and every key of that dict equals the `id` field of the record
stored under it. -/
theorem C8_output_keys_equal_ids (fs : FS) (m : List (String × Solution))
    (h : find_recent_solutions fs (find_latest_recent_solutions_file fs) = Except.ok m) :
    mainOutput fs = Except.ok (serialize (outputJson m)) ∧
    ∀ kv ∈ m, kv.1 = kv.2.id := by
  constructor
  · unfold mainOutput
    rw [h]
    rfl
  · intro kv hkv
    obtain ⟨l, _, rfl⟩ := find_recent_ok h
    obtain ⟨s, _, rfl⟩ := mem_buildDict hkv
    rfl

/-- C9: the dict built from the record list resolves every id to the record
of the last entry with that id in list order — later colliding entries
overwrite earlier ones. -/
theorem C9_last_write_wins (fs : FS) (file : Option String) (l : List Solution)
    (h : recentRecords fs file = Except.ok l) :
    find_recent_solutions fs file = Except.ok (buildDict l) ∧
    ∀ k, lookupD (buildDict l) k = l.reverse.find? (fun s => s.id == k) := by
  constructor
  · unfold find_recent_solutions
    rw [h]
    rfl
  · intro k
    exact lookupD_buildDict l k

/-- The spec's own scenario: the session file lists
`$USER_HOME$/proj/marker`, the marker file exists at the expanded path and
contains `MySolution`, and nothing named `~/proj/marker` exists verbatim. -/
def fsC10 : FS :=
  { home := "/home/u"
    homeEntries := [".Rider2023.1"]
    isDirEntry := fun _ => true
    isFile := fun p => p == "/home/u/proj/marker"
    readText := fun p =>
      if p == "/home/u/proj/marker" then .ok "MySolution" else .fileNotFound
    parseXml := fun f =>
      if f == "/home/u/.Rider2023.1/config/options/recentSolutions.xml" then
        some ["$USER_HOME$/proj/marker"]
      else none }

/-- The record the extractor produces on `fsC10`. -/
def solC10 : Solution :=
  { id := "intellij-rider-search-provider-/home/u/proj/marker"
    name := "~/proj/marker"
    path := "~/proj/marker"
    abspath := "/home/u/proj/marker" }

/-- C10: the fallback branch IS reachable from the extractor. The filter
checks that the expanded path is a file, but `get_solution` reads the
unexpanded path `~/proj/marker`, which raises `FileNotFoundError`, so the
record's name falls back to the raw path instead of the marker content
`MySolution` that the spec's scenario expects. -/
theorem C10_fallback_reachable_from_extractor :
    fsC10.isFile "/home/u/proj/marker" = true ∧
    fsC10.readText "/home/u/proj/marker" = ReadResult.ok "MySolution" ∧
    fsC10.readText "~/proj/marker" = ReadResult.fileNotFound ∧
    recentRecords fsC10
        (some "/home/u/.Rider2023.1/config/options/recentSolutions.xml") =
      Except.ok [solC10] ∧
    solC10.name = "~/proj/marker" ∧
    solC10.name ≠ "MySolution" := by
  refine ⟨rfl, rfl, rfl, rfl, rfl, ?_⟩
  decide

/-- A two-entry session file where `/missing` does not exist on disk. -/
def fsW1 : FS :=
  { home := "/home/u"
    homeEntries := [".Rider1"]
    isDirEntry := fun _ => true
    isFile := fun p => p == "/e"
    readText := fun _ => .fileNotFound
    parseXml := fun f => if f == "sess" then some ["/e", "/missing"] else none }

/-- C1 witness: instantiated on `fsW1`, where `/missing` fails the
existence filter; the one record the run returns is not for it. -/
theorem C1_missing_paths_excluded_witness :
    ("intellij-rider-search-provider-/e", solutionRecord fsW1 "/e").2.path ≠ "/missing" :=
  C1_missing_paths_excluded fsW1 "sess" ["/e", "/missing"]
    (buildDict [solutionRecord fsW1 "/e"]) "/missing" rfl rfl (by decide) rfl
    ("intellij-rider-search-provider-/e", solutionRecord fsW1 "/e") (by decide)

/-- C2 witness (amended form): on `fsW1` the existing path `/e` is listed
once and yields exactly one record, with the expanded abspath. -/
theorem C2_amended_record_per_occurrence_witness :
    List.count (solutionRecord fsW1 "/e") [solutionRecord fsW1 "/e"] =
      List.count "/e" (recentPathsOf ["/e", "/missing"]) ∧
    (solutionRecord fsW1 "/e").abspath = expanduser fsW1 "/e" :=
  C2_amended_record_per_occurrence fsW1 "sess" ["/e", "/missing"]
    [solutionRecord fsW1 "/e"] "/e" rfl rfl (by decide) rfl

/-- C3 witness: the id of the record for `/e` on `fsW1`. -/
theorem C3_id_deterministic_prefixed_witness :
    (solutionRecord fsW1 "/e").id = "intellij-rider-search-provider-" ++ expanduser fsW1 "/e" ∧
    (∃ rest, (solutionRecord fsW1 "/e").id = "intellij-rider-search-provider-" ++ rest) ∧
    (∀ (fs' : FS) (q : String) (r' : Solution), get_solution fs' q = Except.ok r' →
      expanduser fs' q = expanduser fsW1 "/e" → r'.id = (solutionRecord fsW1 "/e").id) :=
  C3_id_deterministic_prefixed fsW1 "/e" (solutionRecord fsW1 "/e") rfl

/-- C4 witness (amended form): on `fsC4` the produced record's path is the
source value with the placeholder substituted. -/
theorem C4_amended_path_is_substituted_value_witness :
    ∃ v ∈ ["$USER_HOME$/proj/a"],
      (solutionRecord fsC4 "~/proj/a").path = pyReplace v "$USER_HOME$" "~" :=
  C4_amended_path_is_substituted_value fsC4
    "/home/u/.Rider1/config/options/recentSolutions.xml"
    ["$USER_HOME$/proj/a"] [solutionRecord fsC4 "~/proj/a"] rfl rfl
    (solutionRecord fsC4 "~/proj/a") (by decide)

/-- A filesystem exercising all three read outcomes: `/a` missing, `/b`
readable with content ` N `, `/c` failing with a non-missing error. -/
def fsW5 : FS :=
  { home := "/home/u"
    homeEntries := []
    isDirEntry := fun _ => true
    isFile := fun _ => true
    readText := fun p =>
      if p == "/b" then .ok " N " else if p == "/c" then .otherError else .fileNotFound
    parseXml := fun _ => none }

/-- C5 witness (amended form): the three name rules instantiated on the
three paths of `fsW5`. -/
theorem C5_amended_name_rules_witness :
    (get_solution fsW5 "/a" = Except.ok (solutionRecord fsW5 "/a") ∧
      (solutionRecord fsW5 "/a").name = "/a") ∧
    (get_solution fsW5 "/b" = Except.ok (solutionRecord fsW5 "/b") ∧
      (solutionRecord fsW5 "/b").name = pyStrip " N ") ∧
    get_solution fsW5 "/c" = Except.error Err.readError :=
  ⟨(C5_amended_name_rules fsW5 "/a").1 rfl,
   (C5_amended_name_rules fsW5 "/b").2.1 " N " rfl,
   (C5_amended_name_rules fsW5 "/c").2.2 rfl⟩

/-- C6 witness (amended form): on `fsC6` the locator picks the greatest
matching name `.RiderZ`. -/
theorem C6_amended_locator_behaviour_witness :
    ∃ best ∈ fsC6.homeEntries.filter (fun n => pyStartsWith n ".Rider"),
      (∀ a ∈ fsC6.homeEntries.filter (fun n => pyStartsWith n ".Rider"),
        strLe a best = true) ∧
      find_latest_recent_solutions_file fsC6 =
        some (fsC6.home ++ "/" ++ best ++ "/config/options/recentSolutions.xml") :=
  (C6_amended_locator_behaviour fsC6).2 (by decide)

/-- A home directory with no `.Rider` entry at all. -/
def fsW7 : FS :=
  { home := "/h"
    homeEntries := ["foo", ".config"]
    isDirEntry := fun _ => true
    isFile := fun _ => false
    readText := fun _ => .fileNotFound
    parseXml := fun _ => none }

/-- C7 witness: on `fsW7` the locator returns an absence value and the run
ends in the parse error with no output. -/
theorem C7_no_matching_entry_fatal_witness :
    find_latest_recent_solutions_file fsW7 = none ∧
    mainOutput fsW7 = Except.error Err.parseError :=
  C7_no_matching_entry_fatal fsW7 (by decide)

/-- A complete happy-path filesystem for the output-shape witness. -/
def fsW8 : FS :=
  { home := "/home/u"
    homeEntries := [".Rider1"]
    isDirEntry := fun _ => true
    isFile := fun p => p == "/e"
    readText := fun p => if p == "/e" then .ok "Sol" else .fileNotFound
    parseXml := fun f =>
      if f == "/home/u/.Rider1/config/options/recentSolutions.xml" then some ["/e"]
      else none }

/-- C8 witness: the full pipeline on `fsW8`. -/
theorem C8_output_keys_equal_ids_witness :
    mainOutput fsW8 = Except.ok (serialize (outputJson (buildDict [solutionRecord fsW8 "/e"]))) ∧
    ∀ kv ∈ buildDict [solutionRecord fsW8 "/e"], kv.1 = kv.2.id :=
  C8_output_keys_equal_ids fsW8 (buildDict [solutionRecord fsW8 "/e"]) rfl

/-- A session file listing `~/x` and `/h/x`, two distinct raw paths with
the same expansion and hence the same id: a genuine collision. -/
def fsW9 : FS :=
  { home := "/h"
    homeEntries := [".Rider1"]
    isDirEntry := fun _ => true
    isFile := fun p => p == "/h/x"
    readText := fun p => if p == "/h/x" then .ok "N" else .fileNotFound
    parseXml := fun f => if f == "sess" then some ["~/x", "/h/x"] else none }

/-- C2 counterexample: on `fsW9` the session file lists `~/x`, whose
expanded form `/h/x` exists as a file, yet the mapping the run returns
holds a single record — the one for the later colliding entry `/h/x` —
whose `path` is not `~/x`. The listed, existing path `~/x` therefore has
no record of its own in the output mapping: its record was overwritten by
the later entry with the same id. -/
theorem C2_counterexample :
    fsW9.parseXml "sess" = some ["~/x", "/h/x"] ∧
    "~/x" ∈ recentPathsOf ["~/x", "/h/x"] ∧
    fsW9.isFile (expanduser fsW9 "~/x") = true ∧
    find_recent_solutions fsW9 (some "sess") =
      Except.ok [("intellij-rider-search-provider-/h/x", solutionRecord fsW9 "/h/x")] ∧
    (solutionRecord fsW9 "/h/x").path = "/h/x" ∧
    (solutionRecord fsW9 "/h/x").path ≠ "~/x" := by
  refine ⟨rfl, by decide, rfl, rfl, rfl, ?_⟩
  decide

/-- C9 witness: on `fsW9` both entries collide on one id and the dict
resolves it to the later record. -/
theorem C9_last_write_wins_witness :
    find_recent_solutions fsW9 (some "sess") =
      Except.ok (buildDict [solutionRecord fsW9 "~/x", solutionRecord fsW9 "/h/x"]) ∧
    ∀ k, lookupD (buildDict [solutionRecord fsW9 "~/x", solutionRecord fsW9 "/h/x"]) k =
      [solutionRecord fsW9 "~/x", solutionRecord fsW9 "/h/x"].reverse.find?
        (fun s => s.id == k) :=
  C9_last_write_wins fsW9 (some "sess")
    [solutionRecord fsW9 "~/x", solutionRecord fsW9 "/h/x"] rfl
